import Mathlib

/-
Verification development for the core of the rip package installer
(crates/rattler_installs_packages).  The Rust sources are embedded
shallowly: pure functions become Lean functions, the on-disk content
store becomes explicit state passing, fallible code returns Except, and
external collaborators (the zip reader, the cacache store, the rkyv
codec, the tokio runtime) are modelled by executable Lean definitions
that follow their documented behaviour.  Each definition carries a
comment pointing at the Rust item it embeds.
-/

/-! ## Generic helpers: bytes, association lists, ordering, sorting -/

/-- Byte buffers are modelled as lists of natural numbers, one per byte. -/
abbrev Bytes := List Nat

/-- Association-list lookup keyed by decidable equality.  Models lookup in
a Rust HashMap (`HashMap::get`). -/
def lookupAssoc {α β : Type} [DecidableEq α] : List (α × β) → α → Option β
  | [], _ => none
  | (k0, v0) :: rest, k => if k0 = k then some v0 else lookupAssoc rest k

/-- Association-list insertion with the semantics of Rust
`HashMap::insert`: when the key is already present its value is replaced,
otherwise the pair is appended. -/
def insertAssoc {α β : Type} [DecidableEq α] : List (α × β) → α → β → List (α × β)
  | [], k, v => [(k, v)]
  | (k0, v0) :: rest, k, v =>
    if k0 = k then (k0, v) :: rest else (k0, v0) :: insertAssoc rest k v

/-- Lexicographic comparison of character lists by code point; used as the
canonical key order of the serialized manifest maps. -/
def charListLe : List Char → List Char → Bool
  | [], _ => true
  | _ :: _, [] => false
  | a :: as, b :: bs =>
    if a.toNat < b.toNat then true
    else if b.toNat < a.toNat then false
    else charListLe as bs

/-- Insert into a list sorted by `le`. -/
def insertLe {α : Type} (le : α → α → Bool) (a : α) : List α → List α
  | [] => [a]
  | b :: l => if le a b then a :: b :: l else b :: insertLe le a l

/-- Insertion sort by a boolean comparison.  Used to model the fact that
the rkyv serialization of a hash map is a function of the map contents
alone (entry placement is derived from deterministic key hashes), not of
the iteration order of the in-memory map. -/
def sortLe {α : Type} (le : α → α → Bool) : List α → List α
  | [] => []
  | a :: l => insertLe le a (sortLe le l)

theorem insertLe_perm {α : Type} (le : α → α → Bool) (a : α) (l : List α) :
    (insertLe le a l).Perm (a :: l) := by
  induction l with
  | nil => exact List.Perm.refl _
  | cons b t ih =>
    by_cases h : le a b = true
    · simp [insertLe, h]
    · rw [show insertLe le a (b :: t) = b :: insertLe le a t by
        simp [insertLe, h]]
      exact ((ih.cons b).trans (List.Perm.swap a b t))

theorem sortLe_perm {α : Type} (le : α → α → Bool) (l : List α) :
    (sortLe le l).Perm l := by
  induction l with
  | nil => simp [sortLe]
  | cons a t ih =>
    exact (insertLe_perm le a (sortLe le t)).trans (ih.cons a)

/-! ## Data model of the extraction cache (src/cache/mod.rs)

The Rust struct `CachedArchiveEntryData` declares exactly two fields:
a `content` string holding the textual content-store integrity value and
an optional `mode` with the unix permission bits of the zip entry. -/

/-- Translation of the Rust struct `CachedArchiveEntryData`
(src/cache/mod.rs lines 120-129). -/
structure CachedArchiveEntryData where
  content : String
  mode : Option Nat
deriving DecidableEq, Repr, Inhabited

/-- The field names of the Rust struct `CachedArchiveEntryData`, in
declaration order.  The struct declares a `content` field and a `mode`
field and nothing else. -/
def CachedArchiveEntryData.fieldNames : List String := ["content", "mode"]

/-- Translation of the Rust struct `CachedArchiveData`
(src/cache/mod.rs lines 106-118).  The Rust `HashMap` fields are
modelled as association lists in insertion order; lookup and insertion go
through `lookupAssoc` and `insertAssoc`. -/
structure CachedArchiveData where
  files : List (String × CachedArchiveEntryData)
  links : List (String × String)
  directories : List String
deriving DecidableEq, Repr, Inhabited

/-! ## Content store (external crate cacache, used by src/cache/mod.rs)

The store is content addressed: committing a blob yields an integrity
string that is a pure function of the blob bytes (algorithm tag plus
digest).  The xxh3 digest itself is external; it is modelled by an
executable surrogate hash.  Nothing below depends on which function it
is, only on it being a function of the bytes. -/

/-- Executable surrogate for the external 64-bit xxh3 digest used by the
store (`Algorithm::Xxh3`); a pure function of the blob bytes. -/
def xxh3Model (b : Bytes) : Nat :=
  b.foldl (fun h x => (h * 31 + x + 1) % (2 ^ 64)) 0

/-- Model of `cacache::Integrity::to_string`: the algorithm tag followed
by a textual encoding of the digest. -/
def integrityToString (digest : Nat) : String :=
  "xxh3-" ++ toString digest

/-- The content-addressed store: committed blobs keyed by their integrity
string. -/
abbrev Store := List (String × Bytes)

/-- Model of opening a cacache writer, streaming the entry bytes and
committing (`WriteOpts::open_hash_sync` followed by `commit` in
src/cache/mod.rs lines 198-221).  Committing is idempotent: bytes already
present yield the same integrity and the duplicate is discarded.  The
returned integrity depends only on the bytes, never on the store state. -/
def commitBlob (s : Store) (b : Bytes) : Store × String :=
  let i := integrityToString (xxh3Model b)
  ((lookupAssoc s i).elim (insertAssoc s i b) (fun _ => s), i)

/-! ## Zip entries (external zip crate, as consumed by src/cache/mod.rs)

`read_zipfile_from_stream` hands the extractor entries whose name has
already been decoded to a string by the zip crate.  The helpers below
follow the documented behaviour of `ZipFile::is_dir`, `ZipFile::is_file`
and `ZipFile::enclosed_name`. -/

/-- A zip entry as observed by the extractor: the declared name, the
entry byte stream, the optional unix permissions and the optional last
modified time in milliseconds. -/
structure ZipEntry where
  name : String
  bytes : Bytes
  unixMode : Option Nat
  lastModifiedMs : Option Nat
deriving DecidableEq, Repr, Inhabited

/-- Model of `ZipFile::is_dir`: the declared name ends in a forward or
backward slash. -/
def ZipEntry.isDir (e : ZipEntry) : Bool :=
  match e.name.data.reverse with
  | [] => false
  | c :: _ => c = '/' || c = '\\'

/-- Model of `ZipFile::is_file`: any entry that is not a directory. -/
def ZipEntry.isFile (e : ZipEntry) : Bool := ! e.isDir

/-- Split a string into slash-separated path components, following the
component iterator of `std::path::Path` on unix. -/
def slashComponents (s : String) : List String :=
  ((s.data.foldr
      (fun c acc =>
        if c = '/' then ([], acc.1 :: acc.2) else (c :: acc.1, acc.2))
      ([], [])).1 ::
    (s.data.foldr
      (fun c acc =>
        if c = '/' then ([], acc.1 :: acc.2) else (c :: acc.1, acc.2))
      ([], [])).2).map (fun l => String.mk l)

/-- Depth check of `ZipFile::enclosed_name`: walking the components, a
parent-directory component may never take the depth below zero. -/
def componentsDepthOk (cs : List String) : Bool :=
  (cs.foldl
    (fun acc c =>
      match acc with
      | none => none
      | some d =>
        if c = "" || c = "." then some d
        else if c = ".." then (if d = 0 then none else some (d - 1))
        else some (d + 1))
    (some 0)).isSome

/-- Model of `ZipFile::enclosed_name` (external zip crate): rejects names
containing a NUL byte, absolute names, and names whose parent-directory
components escape the archive root; otherwise returns the name
unchanged (the crate returns `Path::new(name)`, which does not copy or
normalise). -/
def enclosedName (s : String) : Option String :=
  if s.data.contains (Char.ofNat 0) then none
  else if s.data.head? = some '/' then none
  else if componentsDepthOk (slashComponents s) then some s
  else none

/-- Model of `OsStr::to_str` on the path returned by `enclosed_name`.
The zip crate stores entry names as Rust strings, so the conversion back
to a string always succeeds; the non-UTF-8 failure arm of the extractor
is unreachable in this embedding. -/
def osStrToStr (s : String) : Option String := some s

/-! ## The extractor (src/cache/mod.rs, extract_zip_archive) -/

/-- Translation of the error enum `ExtractZipArchiveError`
(src/cache/mod.rs lines 131-148). -/
inductive ExtractZipArchiveError where
  | Zip (detail : String)
  | InvalidEntry (name : String) (reason : String)
  | CacheError (path : String)
  | IoError (path : String)
deriving DecidableEq, Repr

/-- One iteration of the entry loop of `extract_zip_archive`
(src/cache/mod.rs lines 171-232): validate the declared name, then either
record a directory, or stream a file into the store and record its
integrity and mode.  The store operations of the model are total, so the
CacheError and IoError arms of the source do not arise here. -/
def extractEntry (store : Store) (archive : CachedArchiveData) (e : ZipEntry) :
    Except ExtractZipArchiveError (Store × CachedArchiveData) :=
  match enclosedName e.name with
  | none => .error (.InvalidEntry e.name "is not a valid path")
  | some p =>
    match osStrToStr p with
    | none => .error (.InvalidEntry e.name "is not a valid utf-8 path")
    | some path =>
      if e.isDir then
        .ok (store, { archive with directories := archive.directories ++ [path] })
      else if e.isFile then
        let (store', integrity) := commitBlob store e.bytes
        .ok (store',
          { archive with
            files := insertAssoc archive.files path
              { content := integrity, mode := e.unixMode } })
      else
        .ok (store, archive)

/-- The entry loop of `extract_zip_archive`: entries are processed in
archive order and the first failure aborts the extraction. -/
def extractLoop (store : Store) (archive : CachedArchiveData) :
    List ZipEntry → Except ExtractZipArchiveError (Store × CachedArchiveData)
  | [] => .ok (store, archive)
  | e :: rest =>
    match extractEntry store archive e with
    | .error err => .error err
    | .ok (store', archive') => extractLoop store' archive' rest

/-! ## Manifest codec (src/cache/owned_archive.rs and the rkyv framework)

The rkyv encoding itself is external to the repository.  It is modelled
by an executable length-prefixed encoding with one property taken from
the behaviour of rkyv on hash maps: the byte layout of a serialized map
is a function of the map contents (keys are placed by deterministic key
hashes), never of the iteration order of the in-memory HashMap.  The
model realises this by serializing both maps in canonical key order. -/

/-- Key order used for the canonical serialization of the `files` map. -/
def fileKeyLe (p q : String × CachedArchiveEntryData) : Bool :=
  charListLe p.1.data q.1.data

/-- Key order used for the canonical serialization of the `links` map. -/
def linkKeyLe (p q : String × String) : Bool :=
  charListLe p.1.data q.1.data

/-- The canonical form that the codec serializes: map entries in key
order, directories in archive order. -/
def canonicalData (m : CachedArchiveData) : CachedArchiveData :=
  { files := sortLe fileKeyLe m.files
    links := sortLe linkKeyLe m.links
    directories := m.directories }

/-- Length-prefixed string encoding. -/
def encodeString (s : String) : Bytes :=
  s.data.length :: s.data.map Char.toNat

/-- Encoding of an optional natural number (a presence tag, then the
value). -/
def encodeOptionNat : Option Nat → Bytes
  | none => [0]
  | some n => [1, n]

/-- Encoding of one entry of the `files` map. -/
def encodeFilePair (p : String × CachedArchiveEntryData) : Bytes :=
  encodeString p.1 ++ encodeString p.2.content ++ encodeOptionNat p.2.mode

/-- Encoding of one entry of the `links` map. -/
def encodeLinkPair (p : String × String) : Bytes :=
  encodeString p.1 ++ encodeString p.2

/-- Count-prefixed list encoding. -/
def encodeListOf {α : Type} (f : α → Bytes) (l : List α) : Bytes :=
  l.length :: (l.map f).flatten

/-- Model of serializing a `CachedArchiveData` with rkyv
(`rkyv::to_bytes` in `CachedArchive::from_unarchived`,
src/cache/mod.rs lines 79-83, and `OwnedArchive::from_unarchived`,
src/cache/owned_archive.rs lines 100-112). -/
def serializeData (m : CachedArchiveData) : Bytes :=
  encodeListOf encodeFilePair (canonicalData m).files ++
    encodeListOf encodeLinkPair (canonicalData m).links ++
    encodeListOf encodeString m.directories

/-- Read exactly `n` items from the front of a buffer. -/
def readN {α : Type} : Nat → List α → Option (List α × List α)
  | 0, b => some ([], b)
  | _ + 1, [] => none
  | n + 1, x :: b => (readN n b).map (fun p => (x :: p.1, p.2))

/-- Decode a length-prefixed string. -/
def decodeString : Bytes → Option (String × Bytes)
  | [] => none
  | n :: b => (readN n b).map (fun p => (String.mk (p.1.map Char.ofNat), p.2))

/-- Decode an optional natural number. -/
def decodeOptionNat : Bytes → Option (Option Nat × Bytes)
  | 0 :: b => some (none, b)
  | 1 :: n :: b => some (some n, b)
  | _ => none

/-- Decode one entry of the `files` map. -/
def decodeFilePair (b : Bytes) : Option ((String × CachedArchiveEntryData) × Bytes) :=
  match decodeString b with
  | none => none
  | some (path, b1) =>
    match decodeString b1 with
    | none => none
    | some (content, b2) =>
      match decodeOptionNat b2 with
      | none => none
      | some (mode, b3) => some ((path, { content := content, mode := mode }), b3)

/-- Decode one entry of the `links` map. -/
def decodeLinkPair (b : Bytes) : Option ((String × String) × Bytes) :=
  match decodeString b with
  | none => none
  | some (path, b1) =>
    match decodeString b1 with
    | none => none
    | some (target, b2) => some ((path, target), b2)

/-- Decode exactly `n` consecutive items. -/
def decodeItems {α : Type} (f : Bytes → Option (α × Bytes)) :
    Nat → Bytes → Option (List α × Bytes)
  | 0, b => some ([], b)
  | n + 1, b =>
    match f b with
    | none => none
    | some (x, b1) =>
      match decodeItems f n b1 with
      | none => none
      | some (xs, b2) => some (x :: xs, b2)

/-- Decode a count-prefixed list. -/
def decodeListOf {α : Type} (f : Bytes → Option (α × Bytes)) :
    Bytes → Option (List α × Bytes)
  | [] => none
  | n :: b => decodeItems f n b

/-- Model of the rkyv validation plus view of a manifest buffer
(`check_archived_root` followed by `archived_root`): decode the three
sections and require the buffer to be fully consumed. -/
def decodeData (b : Bytes) : Option CachedArchiveData :=
  match decodeListOf decodeFilePair b with
  | none => none
  | some (files, b1) =>
    match decodeListOf decodeLinkPair b1 with
    | none => none
    | some (links, b2) =>
      match decodeListOf decodeString b2 with
      | none => none
      | some (dirs, b3) =>
        if b3 = [] then some { files := files, links := links, directories := dirs }
        else none

/-- Translation of the error enum `CachedArchiveError`
(src/cache/mod.rs lines 14-21); the variant carries the message of the
failed validation. -/
inductive CachedArchiveError where
  | ArchiveRead (msg : String)
  | IoError
deriving DecidableEq, Repr

/-- Translation of the Rust struct `CachedArchive`
(src/cache/mod.rs lines 30-32): a validated owned byte buffer holding
the serialized manifest. -/
structure CachedArchive where
  bytes : Bytes
deriving DecidableEq, Repr

/-- Translation of `CachedArchive::new` (src/cache/mod.rs lines 54-58):
validate that the bytes are a well-formed archive, keeping the buffer
unchanged on success. -/
def CachedArchive.new (b : Bytes) : Except CachedArchiveError CachedArchive :=
  match decodeData b with
  | some _ => .ok { bytes := b }
  | none => .error (.ArchiveRead "check failed")

/-- Translation of `CachedArchive::from_unarchived`
(src/cache/mod.rs lines 79-83): serialize a manifest value into an owned
buffer. -/
def CachedArchive.from_unarchived (m : CachedArchiveData) : CachedArchive :=
  { bytes := serializeData m }

/-- Translation of `CachedArchive::as_bytes` (src/cache/mod.rs
lines 74-76). -/
def CachedArchive.as_bytes (a : CachedArchive) : Bytes := a.bytes

/-- Translation of `CachedArchive::deserialize` (src/cache/mod.rs
lines 87-92): decode the validated buffer into an owned manifest value.
On a buffer that does not validate the source panics; the model returns
the default value there. -/
def CachedArchive.deserialize (a : CachedArchive) : CachedArchiveData :=
  (decodeData a.bytes).getD default

/-- Translation of `extract_zip_archive` (src/cache/mod.rs
lines 159-236): run the entry loop starting from the empty manifest and
serialize the result.  The model additionally returns the final store
state, which the source keeps on disk. -/
def extract_zip_archive (cache : Store) (entries : List ZipEntry) :
    Except ExtractZipArchiveError (Store × CachedArchive) :=
  match extractLoop cache { files := [], links := [], directories := [] } entries with
  | .error err => .error err
  | .ok (store, archive) => .ok (store, CachedArchive.from_unarchived archive)

/-- Decidable equality of Except results, used by concrete witnesses. -/
instance {e a : Type} [DecidableEq e] [DecidableEq a] : DecidableEq (Except e a) := fun x y =>
  match x, y with
  | .error e1, .error e2 =>
    if h : e1 = e2 then isTrue (by rw [h])
    else isFalse (by intro hc; cases hc; exact h rfl)
  | .error _, .ok _ => isFalse (by intro hc; cases hc)
  | .ok _, .error _ => isFalse (by intro hc; cases hc)
  | .ok a1, .ok a2 =>
    if h : a1 = a2 then isTrue (by rw [h])
    else isFalse (by intro hc; cases hc; exact h rfl)

/-! ## Round-trip lemmas for the codec model -/

theorem readN_append {α : Type} (l rest : List α) :
    readN l.length (l ++ rest) = some (l, rest) := by
  induction l with
  | nil => simp [readN]
  | cons x t ih => simp [readN, ih]

theorem decodeString_encode (s : String) (rest : Bytes) :
    decodeString (encodeString s ++ rest) = some (s, rest) := by
  have hlen : s.data.length = (s.data.map Char.toNat).length := by simp
  simp only [encodeString, decodeString, List.cons_append, hlen,
    readN_append, Option.map_some]
  have hmap : (s.data.map Char.toNat).map Char.ofNat = s.data := by
    rw [List.map_map]
    exact List.map_congr_left (fun c _ => Char.ofNat_toNat c) |>.trans s.data.map_id
  simp [hmap]

theorem decodeOptionNat_encode (o : Option Nat) (rest : Bytes) :
    decodeOptionNat (encodeOptionNat o ++ rest) = some (o, rest) := by
  cases o <;> simp [encodeOptionNat, decodeOptionNat]

theorem decodeFilePair_encode (p : String × CachedArchiveEntryData) (rest : Bytes) :
    decodeFilePair (encodeFilePair p ++ rest) = some (p, rest) := by
  simp [encodeFilePair, decodeFilePair, List.append_assoc,
    decodeString_encode, decodeOptionNat_encode]

theorem decodeLinkPair_encode (p : String × String) (rest : Bytes) :
    decodeLinkPair (encodeLinkPair p ++ rest) = some (p, rest) := by
  simp [encodeLinkPair, decodeLinkPair, List.append_assoc, decodeString_encode]

theorem decodeItems_encode {α : Type} (f : Bytes → Option (α × Bytes))
    (g : α → Bytes) (hf : ∀ x rest, f (g x ++ rest) = some (x, rest))
    (l : List α) (rest : Bytes) :
    decodeItems f l.length ((l.map g).flatten ++ rest) = some (l, rest) := by
  induction l with
  | nil => simp [decodeItems]
  | cons x t ih =>
    simp only [List.map_cons, List.flatten_cons, List.length_cons,
      List.append_assoc, decodeItems, hf, ih]

theorem decodeListOf_encode {α : Type} (f : Bytes → Option (α × Bytes))
    (g : α → Bytes) (hf : ∀ x rest, f (g x ++ rest) = some (x, rest))
    (l : List α) (rest : Bytes) :
    decodeListOf f (encodeListOf g l ++ rest) = some (l, rest) := by
  simp only [encodeListOf, List.cons_append, decodeListOf]
  exact decodeItems_encode f g hf l rest

theorem decodeListOf_encode_nil {α : Type} (f : Bytes → Option (α × Bytes))
    (g : α → Bytes) (hf : ∀ x rest, f (g x ++ rest) = some (x, rest))
    (l : List α) :
    decodeListOf f (encodeListOf g l) = some (l, []) := by
  have h := decodeListOf_encode f g hf l []
  simpa using h

theorem decodeData_serializeData (m : CachedArchiveData) :
    decodeData (serializeData m) = some (canonicalData m) := by
  simp only [serializeData, decodeData, List.append_assoc,
    decodeListOf_encode decodeFilePair encodeFilePair decodeFilePair_encode,
    decodeListOf_encode decodeLinkPair encodeLinkPair decodeLinkPair_encode,
    decodeListOf_encode_nil decodeString encodeString decodeString_encode]
  simp [canonicalData]

/-- Lookup in an association list with duplicate-free keys is invariant
under permutation. -/
theorem lookupAssoc_perm {α β : Type} [DecidableEq α]
    {l₁ l₂ : List (α × β)} (hp : l₁.Perm l₂)
    (hnd : (l₁.map Prod.fst).Nodup) (k : α) :
    lookupAssoc l₁ k = lookupAssoc l₂ k := by
  induction hp with
  | nil => rfl
  | cons x _ ih =>
    simp only [List.map_cons, List.nodup_cons] at hnd
    simp only [lookupAssoc]
    by_cases hx : x.1 = k
    · simp [hx]
    · simp only [hx, if_false]
      exact ih hnd.2
  | swap x y l =>
    simp only [List.map_cons, List.nodup_cons, List.mem_cons] at hnd
    have hxy : y.1 ≠ x.1 := fun h => hnd.1 (Or.inl h)
    simp only [lookupAssoc]
    by_cases hy : y.1 = k
    · have hx : ¬ x.1 = k := fun h => hxy (hy.trans h.symm)
      simp [hy, hx]
    · by_cases hx : x.1 = k <;> simp [hx, hy]
  | trans p₁ p₂ ih₁ ih₂ =>
    have hnd₂ := (p₁.map Prod.fst).nodup_iff.mp hnd
    exact (ih₁ hnd).trans (ih₂ hnd₂)

/-! ## Claims C6, C1 about the codec and the extractor -/

/-- Well-formedness of a manifest value: the map fields have
duplicate-free keys (the invariant of any value deserialized from or
destined for a Rust HashMap). -/
def WFData (m : CachedArchiveData) : Prop :=
  (m.files.map Prod.fst).Nodup ∧ (m.links.map Prod.fst).Nodup

instance (m : CachedArchiveData) : Decidable (WFData m) := by
  unfold WFData; infer_instance

/-- C6.  Codec round-trip: for any manifest value `m`, validating the
bytes produced by serializing `m` (`CachedArchive.new` applied to the
bytes of `CachedArchive.from_unarchived m`) succeeds, and deserializing
the resulting owned archive yields a value equal to `m`: the `files` and
`links` maps agree as finite maps (same entries up to order, identical
lookups) and the directory list is identical. -/
theorem codec_round_trip (m : CachedArchiveData) (hwf : WFData m) :
    ∃ a, CachedArchive.new (CachedArchive.from_unarchived m).bytes = .ok a ∧
      (CachedArchive.deserialize a).files.Perm m.files ∧
      (CachedArchive.deserialize a).links.Perm m.links ∧
      (CachedArchive.deserialize a).directories = m.directories ∧
      (∀ k, lookupAssoc (CachedArchive.deserialize a).files k = lookupAssoc m.files k) ∧
      (∀ k, lookupAssoc (CachedArchive.deserialize a).links k = lookupAssoc m.links k) := by
  refine ⟨{ bytes := serializeData m }, ?_, ?_⟩
  · simp [CachedArchive.new, CachedArchive.from_unarchived, decodeData_serializeData]
  · have hdes : CachedArchive.deserialize { bytes := serializeData m } = canonicalData m := by
      simp [CachedArchive.deserialize, decodeData_serializeData]
    rw [hdes]
    have hpf : (canonicalData m).files.Perm m.files := sortLe_perm _ _
    have hpl : (canonicalData m).links.Perm m.links := sortLe_perm _ _
    refine ⟨hpf, hpl, rfl, ?_, ?_⟩
    · intro k
      exact lookupAssoc_perm hpf ((hpf.map Prod.fst).nodup_iff.mpr hwf.1) k
    · intro k
      exact lookupAssoc_perm hpl ((hpl.map Prod.fst).nodup_iff.mpr hwf.2) k

/-- Concrete manifest used by the codec round-trip witness; its `files`
map is deliberately not in key order. -/
def demoManifest : CachedArchiveData :=
  { files := [("b.txt", { content := "xxh3-7", mode := none }),
              ("a.txt", { content := "xxh3-9", mode := some 420 })]
    links := [("l", "t")]
    directories := ["d/"] }

/-- Witness for C6 at a concrete manifest. -/
theorem codec_round_trip_witness :
    WFData demoManifest ∧
      (∃ a, CachedArchive.new (CachedArchive.from_unarchived demoManifest).bytes = .ok a ∧
        (CachedArchive.deserialize a).files.Perm demoManifest.files ∧
        (CachedArchive.deserialize a).links.Perm demoManifest.links ∧
        (CachedArchive.deserialize a).directories = demoManifest.directories ∧
        (∀ k, lookupAssoc (CachedArchive.deserialize a).files k =
          lookupAssoc demoManifest.files k) ∧
        (∀ k, lookupAssoc (CachedArchive.deserialize a).links k =
          lookupAssoc demoManifest.links k)) :=
  ⟨by decide, codec_round_trip demoManifest (by decide)⟩

/-- Manifest component of an extraction result, discarding the store. -/
def manifestBytes (r : Except ExtractZipArchiveError (Store × CachedArchive)) :
    Except ExtractZipArchiveError Bytes :=
  match r with
  | .error e => .error e
  | .ok (_, a) => .ok a.bytes

/-- Manifest data component of the entry loop, discarding the store. -/
def loopData (r : Except ExtractZipArchiveError (Store × CachedArchiveData)) :
    Except ExtractZipArchiveError CachedArchiveData :=
  match r with
  | .error e => .error e
  | .ok (_, d) => .ok d

theorem extractLoop_store_indep (es : List ZipEntry) :
    ∀ (s₁ s₂ : Store) (d : CachedArchiveData),
      loopData (extractLoop s₁ d es) = loopData (extractLoop s₂ d es) := by
  induction es with
  | nil => intro s₁ s₂ d; rfl
  | cons e rest ih =>
    intro s₁ s₂ d
    simp only [extractLoop, extractEntry, osStrToStr]
    cases enclosedName e.name with
    | none => rfl
    | some p =>
      by_cases hd : e.isDir = true
      · simp only [hd, if_true]
        exact ih s₁ s₂ _
      · simp only [hd, if_false]
        by_cases hf : e.isFile = true
        · simp only [hf, if_true, commitBlob]
          exact ih _ _ _
        · simp only [hf, if_false]
          exact ih s₁ s₂ d

/-- C1.  Extraction is deterministic at the byte level: for any sequence
of zip entries, `extract_zip_archive` yields manifests whose serialized
byte buffers are identical across invocations on any two store states —
in particular across repeated invocations on the same store and across
two fresh stores. -/
theorem extraction_deterministic (s₁ s₂ : Store) (es : List ZipEntry) :
    manifestBytes (extract_zip_archive s₁ es) =
      manifestBytes (extract_zip_archive s₂ es) := by
  have h := extractLoop_store_indep es s₁ s₂
    { files := [], links := [], directories := [] }
  simp only [extract_zip_archive]
  cases h₁ : extractLoop s₁ { files := [], links := [], directories := [] } es with
  | error e₁ =>
    cases h₂ : extractLoop s₂ { files := [], links := [], directories := [] } es with
    | error e₂ =>
      simp only [h₁, h₂, loopData, Except.error.injEq] at h
      simp [manifestBytes, h]
    | ok p₂ => rw [h₁, h₂] at h; simp [loopData] at h
  | ok p₁ =>
    cases h₂ : extractLoop s₂ { files := [], links := [], directories := [] } es with
    | error e₂ => rw [h₁, h₂] at h; simp [loopData] at h
    | ok p₂ =>
      rw [h₁, h₂] at h
      simp only [loopData, Except.ok.injEq] at h
      simp [manifestBytes, CachedArchive.from_unarchived, h]

/-! ## Claims C10, C7, C3 about the extractor -/

theorem enclosedName_eq {s p : String} (h : enclosedName s = some p) : p = s := by
  unfold enclosedName at h
  split at h
  · simp at h
  · split at h
    · simp at h
    · split at h
      · simp only [Option.some.injEq] at h
        exact h.symm
      · simp at h

/-- The file entry value recorded for a committed zip file entry. -/
def fileEntryOf (s : Store) (e : ZipEntry) : CachedArchiveEntryData :=
  { content := (commitBlob s e.bytes).2, mode := e.unixMode }

/-- Complete case description of one loop step of the extractor. -/
theorem extractEntry_shape (s : Store) (d : CachedArchiveData) (e : ZipEntry) :
    (enclosedName e.name = none ∧
      extractEntry s d e = .error (.InvalidEntry e.name "is not a valid path")) ∨
    (enclosedName e.name = some e.name ∧
      ((e.isDir = true ∧ extractEntry s d e =
          .ok (s, { d with directories := d.directories ++ [e.name] })) ∨
       (e.isDir = false ∧ extractEntry s d e =
          .ok ((commitBlob s e.bytes).1,
            { d with files := insertAssoc d.files e.name (fileEntryOf s e) })))) := by
  cases henc : enclosedName e.name with
  | none => exact Or.inl ⟨rfl, by simp [extractEntry, henc]⟩
  | some p =>
    have hp : p = e.name := enclosedName_eq henc
    subst hp
    refine Or.inr ⟨rfl, ?_⟩
    cases hd : e.isDir with
    | true =>
      exact Or.inl ⟨rfl, by simp [extractEntry, henc, osStrToStr, hd]⟩
    | false =>
      refine Or.inr ⟨rfl, ?_⟩
      have hf : e.isFile = true := by simp [ZipEntry.isFile, hd]
      simp [extractEntry, henc, osStrToStr, hd, hf, fileEntryOf, commitBlob]

theorem extractLoop_links (es : List ZipEntry) :
    ∀ (s : Store) (d : CachedArchiveData) (st : Store) (d' : CachedArchiveData),
      extractLoop s d es = .ok (st, d') → d'.links = d.links := by
  induction es with
  | nil =>
    intro s d st d' h
    simp only [extractLoop, Except.ok.injEq, Prod.mk.injEq] at h
    rw [← h.2]
  | cons e rest ih =>
    intro s d st d' h
    rcases extractEntry_shape s d e with ⟨_, herr⟩ | ⟨_, hcase⟩
    · simp only [extractLoop, herr] at h
      exact absurd h (by simp)
    · rcases hcase with ⟨_, hok⟩ | ⟨_, hok⟩
      · simp only [extractLoop, hok] at h
        have h2 := ih _ _ _ _ h
        exact h2
      · simp only [extractLoop, hok] at h
        have h2 := ih _ _ _ _ h
        exact h2

/-- C10.  The manifest produced by `extract_zip_archive` always has an
empty `links` map: extraction classifies entries only as directories or
files and never records a symbolic-link entry. -/
theorem extraction_links_empty (cache : Store) (es : List ZipEntry)
    (st : Store) (a : CachedArchive)
    (h : extract_zip_archive cache es = .ok (st, a)) :
    (CachedArchive.deserialize a).links = [] := by
  simp only [extract_zip_archive] at h
  cases hl : extractLoop cache { files := [], links := [], directories := [] } es with
  | error e =>
    rw [hl] at h
    exact absurd h (by simp)
  | ok p =>
    rw [hl] at h
    simp only [Except.ok.injEq, Prod.mk.injEq] at h
    have hlinks : p.2.links = [] :=
      extractLoop_links es _ _ p.1 p.2 (by rw [hl])
    rw [← h.2]
    simp [CachedArchive.deserialize, CachedArchive.from_unarchived,
      decodeData_serializeData, canonicalData, hlinks, sortLe]

/-- Directory entry used by concrete extraction witnesses. -/
def demoDirEntry : ZipEntry := ⟨"pkg/", [], none, none⟩

/-- File entry used by concrete extraction witnesses. -/
def demoFileEntry : ZipEntry := ⟨"pkg/x.py", [7, 8], some 420, some 100⟩

/-- Manifest value of extracting `demoDirEntry` then `demoFileEntry`. -/
def demoExtractedData : CachedArchiveData :=
  { files := [("pkg/x.py", ⟨"xxh3-257", some 420⟩)]
    links := []
    directories := ["pkg/"] }

/-- Manifest value of extracting only `demoFileEntry`. -/
def demoFileOnlyData : CachedArchiveData :=
  { files := [("pkg/x.py", ⟨"xxh3-257", some 420⟩)]
    links := []
    directories := [] }

/-- Witness for C10 at a concrete archive with a directory and a file. -/
theorem extraction_links_empty_witness :
    extract_zip_archive [] [demoDirEntry, demoFileEntry] =
      .ok ([("xxh3-257", [7, 8])], CachedArchive.from_unarchived demoExtractedData) ∧
    (CachedArchive.deserialize (CachedArchive.from_unarchived demoExtractedData)).links = [] :=
  ⟨by decide,
   extraction_links_empty [] [demoDirEntry, demoFileEntry] [("xxh3-257", [7, 8])]
     (CachedArchive.from_unarchived demoExtractedData) (by decide)⟩

theorem extractLoop_aborts (pre : List ZipEntry) :
    ∀ (s : Store) (d : CachedArchiveData) (bad : ZipEntry) (rest : List ZipEntry),
      (∀ e ∈ pre, (enclosedName e.name).isSome) →
      enclosedName bad.name = none →
      extractLoop s d (pre ++ bad :: rest) =
        .error (.InvalidEntry bad.name "is not a valid path") := by
  induction pre with
  | nil =>
    intro s d bad rest _ hbad
    simp [extractLoop, extractEntry, hbad]
  | cons e pre ih =>
    intro s d bad rest hpre hbad
    rcases extractEntry_shape s d e with ⟨hnone, _⟩ | ⟨_, hcase⟩
    · have hmem := hpre e (List.mem_cons_self e pre)
      rw [hnone] at hmem
      simp at hmem
    · rcases hcase with ⟨_, hok⟩ | ⟨_, hok⟩
      · simp only [List.cons_append, extractLoop, hok]
        exact ih _ _ bad rest (fun x hx => hpre x (List.mem_cons_of_mem e hx)) hbad
      · simp only [List.cons_append, extractLoop, hok]
        exact ih _ _ bad rest (fun x hx => hpre x (List.mem_cons_of_mem e hx)) hbad

/-- C7.  A zip entry whose declared name is not a valid relative path
(absolute, or with parent components escaping the archive root) makes
`extract_zip_archive` fail with `InvalidEntry` naming the entry, and the
malformed entry aborts the extraction, so no manifest is returned.  (In
this embedding entry names arrive from the zip reader as already-decoded
strings, so the separate invalid-UTF-8 arm of the source cannot fire.) -/
theorem invalid_entry_aborts (cache : Store) (pre : List ZipEntry)
    (bad : ZipEntry) (rest : List ZipEntry)
    (hpre : ∀ e ∈ pre, (enclosedName e.name).isSome)
    (hbad : enclosedName bad.name = none) :
    extract_zip_archive cache (pre ++ bad :: rest) =
      .error (.InvalidEntry bad.name "is not a valid path") := by
  simp only [extract_zip_archive,
    extractLoop_aborts pre cache _ bad rest hpre hbad]

/-- Benign entry preceding the malformed one in the C7 witness. -/
def demoOkEntry : ZipEntry := ⟨"ok.txt", [1], none, none⟩

/-- Malformed entry escaping the archive root, for the C7 witness. -/
def demoBadEntry : ZipEntry := ⟨"../evil", [2], none, none⟩

/-- Witness for C7: an entry escaping the archive root aborts the
extraction of an archive that also contains a benign entry. -/
theorem invalid_entry_aborts_witness :
    (∀ e ∈ [demoOkEntry], (enclosedName e.name).isSome) ∧
      enclosedName demoBadEntry.name = none ∧
      extract_zip_archive [] [demoOkEntry, demoBadEntry] =
        .error (.InvalidEntry "../evil" "is not a valid path") :=
  ⟨by decide, by decide,
   invalid_entry_aborts [] [demoOkEntry] demoBadEntry [] (by decide) (by decide)⟩

theorem mem_insertAssoc {α β : Type} [DecidableEq α]
    (l : List (α × β)) (k : α) (v : β) (pe : α × β)
    (h : pe ∈ insertAssoc l k v) : pe = (k, v) ∨ pe ∈ l := by
  induction l with
  | nil =>
    simp only [insertAssoc, List.mem_singleton] at h
    exact Or.inl h
  | cons x t ih =>
    obtain ⟨k0, v0⟩ := x
    by_cases hk : k0 = k
    · rw [show insertAssoc ((k0, v0) :: t) k v = (k0, v) :: t by
        simp [insertAssoc, hk]] at h
      rcases List.mem_cons.mp h with h | h
      · exact Or.inl (by rw [h, hk])
      · exact Or.inr (List.mem_cons_of_mem _ h)
    · rw [show insertAssoc ((k0, v0) :: t) k v = (k0, v0) :: insertAssoc t k v by
        simp [insertAssoc, hk]] at h
      rcases List.mem_cons.mp h with h | h
      · exact Or.inr (by rw [h]; exact List.mem_cons_self _ t)
      · rcases ih h with h | h
        · exact Or.inl h
        · exact Or.inr (List.mem_cons_of_mem _ h)

theorem extractLoop_files (es : List ZipEntry) :
    ∀ (s : Store) (d : CachedArchiveData) (st : Store) (d' : CachedArchiveData),
      extractLoop s d es = .ok (st, d') →
      ∀ pe ∈ d'.files, pe ∈ d.files ∨
        ∃ e, e ∈ es ∧ e.isFile = true ∧
          pe = (e.name, { content := integrityToString (xxh3Model e.bytes),
                          mode := e.unixMode }) := by
  induction es with
  | nil =>
    intro s d st d' h pe hpe
    simp only [extractLoop, Except.ok.injEq, Prod.mk.injEq] at h
    rw [← h.2] at hpe
    exact Or.inl hpe
  | cons e rest ih =>
    intro s d st d' h pe hpe
    rcases extractEntry_shape s d e with ⟨_, herr⟩ | ⟨_, hcase⟩
    · simp only [extractLoop, herr] at h
      exact absurd h (by simp)
    · rcases hcase with ⟨_, hok⟩ | ⟨hd, hok⟩
      · simp only [extractLoop, hok] at h
        rcases ih _ _ _ _ h pe hpe with hin | ⟨e', he', hf, hpe'⟩
        · exact Or.inl hin
        · exact Or.inr ⟨e', List.mem_cons_of_mem e he', hf, hpe'⟩
      · simp only [extractLoop, hok] at h
        rcases ih _ _ _ _ h pe hpe with hin | ⟨e', he', hf, hpe'⟩
        · rcases mem_insertAssoc _ _ _ _ hin with heq | hmem
          · refine Or.inr ⟨e, List.mem_cons_self e rest, by simp [ZipEntry.isFile, hd], ?_⟩
            rw [heq]
            rfl
          · exact Or.inl hmem
        · exact Or.inr ⟨e', List.mem_cons_of_mem e he', hf, hpe'⟩

/-- C3 counterexample.  The recorded file entry of a concrete extraction
consists of a content integrity string and a mode and nothing else: the
entry struct declares no sha256 field, and the single string it carries
is the xxh3-tagged integrity, which does not start with the text
`sha256=`. -/
theorem sha256_field_absent_counterexample :
    "sha256" ∉ CachedArchiveEntryData.fieldNames ∧
      CachedArchiveEntryData.fieldNames = ["content", "mode"] ∧
      extract_zip_archive [] [demoFileEntry] =
        .ok ([("xxh3-257", [7, 8])], CachedArchive.from_unarchived demoFileOnlyData) ∧
      (CachedArchive.deserialize (CachedArchive.from_unarchived demoFileOnlyData)).files =
        [("pkg/x.py", { content := "xxh3-257", mode := some 420 })] ∧
      List.take 7 ("xxh3-257").data ≠ ("sha256=").data := by
  refine ⟨by decide, by decide, by decide, by decide, by decide⟩

/-- C3 (amended).  Every file entry recorded by `extract_zip_archive`
carries exactly the content-store integrity string of the entry byte
stream and the optional unix mode of the zip entry; the entry struct has
no sha256 field, so no secondary SHA-256 digest is recorded. -/
theorem file_entries_content_mode_only (cache : Store) (es : List ZipEntry)
    (st : Store) (a : CachedArchive)
    (h : extract_zip_archive cache es = .ok (st, a)) :
    "sha256" ∉ CachedArchiveEntryData.fieldNames ∧
      ∀ pe ∈ (CachedArchive.deserialize a).files,
        ∃ e, e ∈ es ∧ e.isFile = true ∧
          pe = (e.name, { content := integrityToString (xxh3Model e.bytes),
                          mode := e.unixMode }) := by
  refine ⟨by decide, ?_⟩
  simp only [extract_zip_archive] at h
  cases hl : extractLoop cache { files := [], links := [], directories := [] } es with
  | error e =>
    rw [hl] at h
    exact absurd h (by simp)
  | ok p =>
    rw [hl] at h
    simp only [Except.ok.injEq, Prod.mk.injEq] at h
    intro pe hpe
    rw [← h.2] at hpe
    have hdes : (CachedArchive.deserialize (CachedArchive.from_unarchived p.2)).files
        = sortLe fileKeyLe p.2.files := by
      simp [CachedArchive.deserialize, CachedArchive.from_unarchived,
        decodeData_serializeData, canonicalData]
    rw [hdes] at hpe
    have hpe2 : pe ∈ p.2.files := (sortLe_perm fileKeyLe p.2.files).mem_iff.mp hpe
    rcases extractLoop_files es _ _ p.1 p.2 (by rw [hl]) pe hpe2 with hin | hex
    · simp at hin
    · exact hex

/-- Witness for the amended C3 at a concrete extraction. -/
theorem file_entries_content_mode_only_witness :
    "sha256" ∉ CachedArchiveEntryData.fieldNames ∧
      ∀ pe ∈ (CachedArchive.deserialize (CachedArchive.from_unarchived demoFileOnlyData)).files,
        ∃ e, e ∈ [demoFileEntry] ∧ e.isFile = true ∧
          pe = (e.name, { content := integrityToString (xxh3Model e.bytes),
                          mode := e.unixMode }) :=
  file_entries_content_mode_only [] [demoFileEntry] [("xxh3-257", [7, 8])]
    (CachedArchive.from_unarchived demoFileOnlyData) (by decide)

/-! ## Wheel archives (src/artifacts/wheel.rs)

The package-name and version parsers and the METADATA parser are
external collaborators (`PackageName::from_str`, `Version::from_str`,
`WheelCoreMetadata::try_from`); the definitions below are parameterised
over them, exactly as the source consumes their results. -/

section Wheel

variable {PName Ver : Type} [DecidableEq PName] [DecidableEq Ver]

/-- Translation of the name and version carried by a parsed
`WheelFilename` (crate type consumed in src/artifacts/wheel.rs). -/
structure WheelFilenameM (PName Ver : Type) where
  distribution : PName
  version : Ver
deriving DecidableEq, Repr

/-- Translation of the name and version carried by a parsed
`WheelCoreMetadata` value (crate type consumed in
src/artifacts/wheel.rs). -/
structure WheelCoreMetadataM (PName Ver : Type) where
  name : PName
  version : Ver
deriving DecidableEq, Repr

/-- Translation of the metadata parse error `WheelCoreMetaDataError`, as
far as src/artifacts/wheel.rs constructs it. -/
inductive WheelCoreMetaDataErrorM where
  | FailedToParse (msg : String)
  | Other (msg : String)
deriving DecidableEq, Repr

/-- Translation of the error enum `WheelVitalsError`
(src/artifacts/wheel.rs lines 233-268), restricted to the variants the
embedded functions construct. -/
inductive WheelVitalsError where
  | DistInfoMissing
  | WheelMissing
  | MetadataMissing
  | MultipleSpecialDirs (kind : String)
  | InvalidMetadata (err : WheelCoreMetaDataErrorM)
  | ZipError (file : String)
deriving DecidableEq, Repr

/-- Split a character list at the first slash or backslash, model of the
Rust call `path.split_once(['/', '\\'])` in `find_dist_info`. -/
def splitOnceSepChars : List Char → Option (List Char × List Char)
  | [] => none
  | c :: cs =>
    if c = '/' || c = '\\' then some ([], cs)
    else (splitOnceSepChars cs).map (fun p => (c :: p.1, p.2))

/-- String wrapper of `splitOnceSepChars`. -/
def splitOnceSep (s : String) : Option (String × String) :=
  (splitOnceSepChars s.data).map (fun p => (String.mk p.1, String.mk p.2))

/-- Split a character list at the first occurrence of a character. -/
def splitOnceChar (t : Char) : List Char → Option (List Char × List Char)
  | [] => none
  | c :: cs =>
    if c = t then some ([], cs)
    else (splitOnceChar t cs).map (fun p => (c :: p.1, p.2))

/-- Split a string at its last dash, model of the Rust call
`dir_stem.rsplit_once('-')` in `find_dist_info`. -/
def rsplitOnceDash (s : String) : Option (String × String) :=
  (splitOnceChar '-' s.data.reverse).map
    (fun p => (String.mk p.2.reverse, String.mk p.1.reverse))

/-- Model of `str::strip_suffix(".dist-info")`. -/
def stripDistInfoSuffix (s : String) : Option String :=
  let suf := (".dist-info").data
  if suf.isSuffixOf s.data then
    some (String.mk (s.data.take (s.data.length - suf.length)))
  else none

/-- Model of `str::ends_with` over characters. -/
def strEndsWith (s suf : String) : Bool :=
  suf.data.isSuffixOf s.data

/-- Translation of the filter closure inside `find_dist_info`
(src/artifacts/wheel.rs lines 314-326): a path matches when it has the
form of a dist-info METADATA member whose stem parses to the name and
version of the wheel filename. -/
def distInfoMatch (parsePackageName : String → Option PName)
    (parseVersion : String → Option Ver)
    (wheelName : WheelFilenameM PName Ver) (path : String) : Option String :=
  match splitOnceSep path with
  | none => none
  | some (dirName, rest) =>
    match stripDistInfoSuffix dirName with
    | none => none
    | some dirStem =>
      match rsplitOnceDash dirStem with
      | none => none
      | some (nm, ver) =>
        match parsePackageName nm with
        | none => none
        | some pn =>
          match parseVersion ver with
          | none => none
          | some pv =>
            if pn = wheelName.distribution ∧ pv = wheelName.version ∧ rest = "METADATA"
            then some dirStem else none

/-- Translation of `find_dist_info` (src/artifacts/wheel.rs
lines 310-333): filter the file list through `distInfoMatch` and match
on the first two results. -/
def find_dist_info (parsePackageName : String → Option PName)
    (parseVersion : String → Option Ver)
    (wheelName : WheelFilenameM PName Ver) (files : List String) :
    Except WheelVitalsError String :=
  match files.filterMap (distInfoMatch parsePackageName parseVersion wheelName) with
  | [] => .error .DistInfoMissing
  | [p] => .ok p
  | _ => .error (.MultipleSpecialDirs "dist-info")

/-- Translation of `WheelVitalsError::from_zip` for the FileNotFound
case (src/artifacts/wheel.rs lines 271-285), the only case reachable
from the modelled `read_entry_to_end`. -/
def wheelVitalsFromZip (file : String) : WheelVitalsError :=
  if strEndsWith file "WHEEL" then .WheelMissing
  else if strEndsWith file "METADATA" then .MetadataMissing
  else .ZipError file

/-- Translation of `read_entry_to_end` (src/artifacts/wheel.rs
lines 296-307): look the member up by name; a missing member maps
through `from_zip`. -/
def read_entry_to_end (files : List (String × Bytes)) (name : String) :
    Except WheelVitalsError Bytes :=
  match lookupAssoc files name with
  | some b => .ok b
  | none => .error (wheelVitalsFromZip name)

/-- Translation of `ArchivedWheel::metadata` (src/artifacts/wheel.rs
lines 192-222): locate the dist-info stem, read METADATA, parse it, and
reject a name or version that disagrees with the wheel filename. -/
def ArchivedWheel.metadata (parsePackageName : String → Option PName)
    (parseVersion : String → Option Ver)
    (parseMeta : Bytes → Except WheelCoreMetaDataErrorM (WheelCoreMetadataM PName Ver))
    (name : WheelFilenameM PName Ver) (files : List (String × Bytes)) :
    Except WheelVitalsError (Bytes × WheelCoreMetadataM PName Ver) :=
  match find_dist_info parsePackageName parseVersion name (files.map Prod.fst) with
  | .error e => .error e
  | .ok distInfoStem =>
    match read_entry_to_end files (distInfoStem ++ ".dist-info/METADATA") with
    | .error e => .error e
    | .ok blob =>
      match parseMeta blob with
      | .error e => .error (.InvalidMetadata e)
      | .ok meta =>
        if meta.name ≠ name.distribution then
          .error (.InvalidMetadata (.FailedToParse
            ("name mismatch between " ++ distInfoStem ++
              ".dist-info/METADATA and filename")))
        else if meta.version ≠ name.version then
          .error (.InvalidMetadata (.FailedToParse
            ("version mismatch between " ++ distInfoStem ++
              ".dist-info/METADATA and filename")))
        else .ok (blob, meta)

/-- Translation of `ArchivedWheel::get_lazy_vitals`
(src/artifacts/wheel.rs lines 110-190), eliding the range prefetches:
locate the dist-info stem, find the METADATA member, read and parse it,
and return the parse result.  The source performs no comparison of the
parsed name and version against the wheel filename on this path. -/
def ArchivedWheel.get_lazy_vitals (parsePackageName : String → Option PName)
    (parseVersion : String → Option Ver)
    (parseMeta : Bytes → Except WheelCoreMetaDataErrorM (WheelCoreMetadataM PName Ver))
    (name : WheelFilenameM PName Ver) (files : List (String × Bytes)) :
    Except WheelVitalsError (Bytes × WheelCoreMetadataM PName Ver) :=
  match find_dist_info parsePackageName parseVersion name (files.map Prod.fst) with
  | .error e => .error e
  | .ok distInfoStem =>
    match lookupAssoc files (distInfoStem ++ ".dist-info/METADATA") with
    | none => .error .MetadataMissing
    | some contents =>
      match parseMeta contents with
      | .error e => .error (.InvalidMetadata e)
      | .ok meta => .ok (contents, meta)

/-- Translation of `ArchivedWheel::read_metadata_bytes`
(src/artifacts/wheel.rs lines 225-230), which simply delegates to
`get_lazy_vitals`. -/
def ArchivedWheel.read_metadata_bytes (parsePackageName : String → Option PName)
    (parseVersion : String → Option Ver)
    (parseMeta : Bytes → Except WheelCoreMetaDataErrorM (WheelCoreMetadataM PName Ver))
    (name : WheelFilenameM PName Ver) (files : List (String × Bytes)) :
    Except WheelVitalsError (Bytes × WheelCoreMetadataM PName Ver) :=
  ArchivedWheel.get_lazy_vitals parsePackageName parseVersion parseMeta name files

end Wheel

/-! ## Claims C8, C9 about dist-info location and metadata consistency -/

/-- C8 counterexample.  On a wheel whose listing has no entry of the
form `<stem>.dist-info/METADATA` matching the filename, `find_dist_info`
fails with `DistInfoMissing`, which is distinct from the
`MetadataMissing` error named by the claim. -/
theorem find_dist_info_missing_counterexample :
    find_dist_info (fun s => some s) (fun s => some s)
        (⟨"mypkg", "1.0"⟩ : WheelFilenameM String String)
        ["mypkg-1.0.dist-info/RECORD"] = .error .DistInfoMissing ∧
      find_dist_info (fun s => some s) (fun s => some s)
        (⟨"mypkg", "1.0"⟩ : WheelFilenameM String String)
        ([] : List String) = .error .DistInfoMissing ∧
      WheelVitalsError.DistInfoMissing ≠ WheelVitalsError.MetadataMissing :=
  ⟨by decide, by decide, by decide⟩

/-- C8 (amended).  `find_dist_info` selects listing entries of the form
`<stem>.dist-info/METADATA` whose stem parses to the normalized name and
version of the wheel filename; when no entry matches it fails with
`DistInfoMissing` (not `MetadataMissing`), when exactly one entry
matches it returns its stem, and when two entries with distinct stems
match it fails with `MultipleSpecialDirs` naming dist-info. -/
theorem find_dist_info_characterised {PName Ver : Type}
    [DecidableEq PName] [DecidableEq Ver]
    (parsePackageName : String → Option PName)
    (parseVersion : String → Option Ver)
    (w : WheelFilenameM PName Ver) (files : List String) :
    ((∀ f ∈ files, distInfoMatch parsePackageName parseVersion w f = none) →
      find_dist_info parsePackageName parseVersion w files = .error .DistInfoMissing) ∧
    (∀ p, files.filterMap (distInfoMatch parsePackageName parseVersion w) = [p] →
      find_dist_info parsePackageName parseVersion w files = .ok p) ∧
    (∀ f g p q, f ∈ files → g ∈ files →
      distInfoMatch parsePackageName parseVersion w f = some p →
      distInfoMatch parsePackageName parseVersion w g = some q → p ≠ q →
      find_dist_info parsePackageName parseVersion w files =
        .error (.MultipleSpecialDirs "dist-info")) := by
  refine ⟨?_, ?_, ?_⟩
  · intro hall
    have hnil : files.filterMap (distInfoMatch parsePackageName parseVersion w) = [] :=
      List.filterMap_eq_nil_iff.mpr hall
    simp [find_dist_info, hnil]
  · intro p hp
    simp [find_dist_info, hp]
  · intro f g p q hf hg hfp hgq hne
    have hpmem : p ∈ files.filterMap (distInfoMatch parsePackageName parseVersion w) :=
      List.mem_filterMap.mpr ⟨f, hf, hfp⟩
    have hqmem : q ∈ files.filterMap (distInfoMatch parsePackageName parseVersion w) :=
      List.mem_filterMap.mpr ⟨g, hg, hgq⟩
    cases hfm : files.filterMap (distInfoMatch parsePackageName parseVersion w) with
    | nil =>
      rw [hfm] at hpmem
      simp at hpmem
    | cons x xs =>
      cases xs with
      | nil =>
        rw [hfm] at hpmem hqmem
        simp only [List.mem_singleton] at hpmem hqmem
        exact absurd (hpmem.trans hqmem.symm) hne
      | cons y ys => simp [find_dist_info, hfm]

/-- Witness for the amended C8: exactly one matching entry is selected. -/
theorem find_dist_info_characterised_witness :
    find_dist_info (fun s => some s) (fun s => some s)
        (⟨"mypkg", "1.0"⟩ : WheelFilenameM String String)
        ["mypkg-1.0.dist-info/METADATA", "mypkg/code.py"] = .ok "mypkg-1.0" :=
  (find_dist_info_characterised (fun s => some s) (fun s => some s)
      (⟨"mypkg", "1.0"⟩ : WheelFilenameM String String)
      ["mypkg-1.0.dist-info/METADATA", "mypkg/code.py"]).2.1
    "mypkg-1.0" (by decide)

/-- C9 counterexample.  On the range-fetched remote path the source
returns the parsed metadata without comparing its name and version
against the wheel filename: a METADATA file parsing to a different
distribution name is returned as success, not as `FailedToParse`. -/
theorem lazy_vitals_unchecked_counterexample :
    ArchivedWheel.get_lazy_vitals (fun s => some s) (fun s => some s)
        (fun _ => .ok (⟨"otherpkg", "1.0"⟩ : WheelCoreMetadataM String String))
        (⟨"mypkg", "1.0"⟩ : WheelFilenameM String String)
        [("mypkg-1.0.dist-info/METADATA", [1, 2])] =
      .ok ([1, 2], ⟨"otherpkg", "1.0"⟩) ∧
    ("otherpkg" : String) ≠ "mypkg" :=
  ⟨by decide, by decide⟩

/-- C9 (amended).  Only the local-archive path validates consistency:
whenever `ArchivedWheel.metadata` succeeds, the parsed name and version
agree with the wheel filename, and a name mismatch on that path yields a
`FailedToParse` error; the range-fetched path `get_lazy_vitals` returns
the parse result without any such check. -/
theorem metadata_consistency_local_only {PName Ver : Type}
    [DecidableEq PName] [DecidableEq Ver]
    (parsePackageName : String → Option PName)
    (parseVersion : String → Option Ver)
    (parseMeta : Bytes → Except WheelCoreMetaDataErrorM (WheelCoreMetadataM PName Ver))
    (name : WheelFilenameM PName Ver) (files : List (String × Bytes)) :
    (∀ blob meta,
      ArchivedWheel.metadata parsePackageName parseVersion parseMeta name files =
        .ok (blob, meta) →
      meta.name = name.distribution ∧ meta.version = name.version) ∧
    (∀ stem blob meta,
      find_dist_info parsePackageName parseVersion name (files.map Prod.fst) = .ok stem →
      lookupAssoc files (stem ++ ".dist-info/METADATA") = some blob →
      parseMeta blob = .ok meta →
      meta.name ≠ name.distribution →
      ArchivedWheel.metadata parsePackageName parseVersion parseMeta name files =
        .error (.InvalidMetadata (.FailedToParse
          ("name mismatch between " ++ stem ++ ".dist-info/METADATA and filename")))) ∧
    (∀ stem blob meta,
      find_dist_info parsePackageName parseVersion name (files.map Prod.fst) = .ok stem →
      lookupAssoc files (stem ++ ".dist-info/METADATA") = some blob →
      parseMeta blob = .ok meta →
      ArchivedWheel.get_lazy_vitals parsePackageName parseVersion parseMeta name files =
        .ok (blob, meta)) := by
  refine ⟨?_, ?_, ?_⟩
  · intro blob meta h
    unfold ArchivedWheel.metadata at h
    cases hfd : find_dist_info parsePackageName parseVersion name (files.map Prod.fst) with
    | error e =>
      simp only [hfd] at h
      exact absurd h (by simp)
    | ok stem =>
      simp only [hfd] at h
      cases hre : read_entry_to_end files (stem ++ ".dist-info/METADATA") with
      | error e =>
        simp only [hre] at h
        exact absurd h (by simp)
      | ok b =>
        simp only [hre] at h
        cases hpm : parseMeta b with
        | error e =>
          simp only [hpm] at h
          exact absurd h (by simp)
        | ok m =>
          simp only [hpm] at h
          by_cases h1 : m.name = name.distribution
          · by_cases h2 : m.version = name.version
            · rw [if_neg (not_not_intro h1), if_neg (not_not_intro h2)] at h
              simp only [Except.ok.injEq, Prod.mk.injEq] at h
              rw [← h.2]
              exact ⟨h1, h2⟩
            · rw [if_neg (not_not_intro h1), if_pos h2] at h
              exact absurd h (by simp)
          · rw [if_pos h1] at h
            exact absurd h (by simp)
  · intro stem blob meta hfd hlk hpm hne
    unfold ArchivedWheel.metadata
    have hre : read_entry_to_end files (stem ++ ".dist-info/METADATA") = .ok blob := by
      simp [read_entry_to_end, hlk]
    simp only [hfd, hre, hpm]
    rw [if_pos hne]
  · intro stem blob meta hfd hlk hpm
    unfold ArchivedWheel.get_lazy_vitals
    simp only [hfd, hlk, hpm]

/-- Witness for the amended C9: a consistent local wheel succeeds and
its parsed name and version agree with the filename. -/
theorem metadata_consistency_local_only_witness :
    ArchivedWheel.metadata (fun s => some s) (fun s => some s)
        (fun _ => .ok (⟨"mypkg", "1.0"⟩ : WheelCoreMetadataM String String))
        (⟨"mypkg", "1.0"⟩ : WheelFilenameM String String)
        [("mypkg-1.0.dist-info/METADATA", [1, 2])] = .ok ([1, 2], ⟨"mypkg", "1.0"⟩) ∧
      ((⟨"mypkg", "1.0"⟩ : WheelCoreMetadataM String String).name =
          (⟨"mypkg", "1.0"⟩ : WheelFilenameM String String).distribution ∧
        (⟨"mypkg", "1.0"⟩ : WheelCoreMetadataM String String).version =
          (⟨"mypkg", "1.0"⟩ : WheelFilenameM String String).version) :=
  ⟨by decide,
    (metadata_consistency_local_only (fun s => some s) (fun s => some s)
        (fun _ => .ok (⟨"mypkg", "1.0"⟩ : WheelCoreMetadataM String String))
        (⟨"mypkg", "1.0"⟩ : WheelFilenameM String String)
        [("mypkg-1.0.dist-info/METADATA", [1, 2])]).1
      [1, 2] ⟨"mypkg", "1.0"⟩ (by decide)⟩

/-! ## Build coordinator: metadata phase exit codes
(src/wheel_builder/mod.rs, get_sdist_metadata_internal)

The build backend runs as an external subprocess; its captured output is
a value handed to the coordinator logic.  The wheel type and the parsed
metadata type are opaque to this logic and stay abstract.  The error
enum `WheelBuildError` is declared in the crate outside the provided
sources; the embedded code constructs only its `Error(String)` variant,
which is the one modelled. -/

/-- The error values constructed by the embedded wheel-builder code
(`WheelBuildError::Error(String)` in src/wheel_builder/mod.rs). -/
inductive WheelBuildError where
  | Error (msg : String)
deriving DecidableEq, Repr

/-- Captured output of a finished build-backend process: the exit code
as returned by `ExitStatus::code` (`none` when killed by a signal) and
the lossily decoded standard error text
(`String::from_utf8_lossy(&output.stderr)`). -/
structure ProcessOutput where
  exitCode : Option Int
  stderrLossy : String
deriving DecidableEq, Repr

/-- Translation of `get_sdist_metadata_internal`
(src/wheel_builder/mod.rs lines 269-298) after the `run_command` call:
on an unsuccessful exit (code not 0), exit code 50 falls back to a full
wheel build (`build_wheel`, then `Wheel::metadata` with its parse errors
re-wrapped), while any other failure surfaces the captured standard
error as the message of the build error; a successful exit reads the
metadata files written by the backend. -/
def get_sdist_metadata_internal {W M : Type}
    (output : ProcessOutput)
    (buildWheel : Except WheelBuildError W)
    (wheelMetadata : W → Except String (Bytes × M))
    (readMetadataFiles : Except WheelBuildError (Bytes × M)) :
    Except WheelBuildError (Bytes × M) :=
  if output.exitCode ≠ some 0 then
    if output.exitCode = some 50 then
      match buildWheel with
      | .error e => .error e
      | .ok w =>
        match wheelMetadata w with
        | .error e => .error (.Error ("Could not parse wheel metadata: " ++ e))
        | .ok m => .ok m
    else .error (.Error output.stderrLossy)
  else readMetadataFiles

/-- C5.  In metadata extraction, exit code 50 of the WheelMetadata phase
makes the coordinator fall back to a full wheel build and derive the
metadata from the produced binary archive (propagating a failed build),
while any other non-zero exit code fails with an error whose message is
the captured standard error of the build process. -/
theorem metadata_exit_code_semantics {W M : Type}
    (buildWheel : Except WheelBuildError W)
    (wheelMetadata : W → Except String (Bytes × M))
    (readMetadataFiles : Except WheelBuildError (Bytes × M))
    (stderrText : String) (c : Int) :
    (∀ w m, buildWheel = .ok w → wheelMetadata w = .ok m →
      get_sdist_metadata_internal ⟨some 50, stderrText⟩
        buildWheel wheelMetadata readMetadataFiles = .ok m) ∧
    (∀ e, buildWheel = .error e →
      get_sdist_metadata_internal ⟨some 50, stderrText⟩
        buildWheel wheelMetadata readMetadataFiles = .error e) ∧
    (c ≠ 0 → c ≠ 50 →
      get_sdist_metadata_internal ⟨some c, stderrText⟩
        buildWheel wheelMetadata readMetadataFiles =
        .error (.Error stderrText)) := by
  refine ⟨?_, ?_, ?_⟩
  · intro w m hw hm
    simp [get_sdist_metadata_internal, hw, hm]
  · intro e he
    simp [get_sdist_metadata_internal, he]
  · intro h0 h50
    simp [get_sdist_metadata_internal, h0, h50]

/-- Witness for C5 at concrete outputs: exit code 50 with a successful
fallback build yields the metadata of the built wheel, and exit code 2
yields the captured standard error as the error message. -/
theorem metadata_exit_code_semantics_witness :
    get_sdist_metadata_internal (⟨some 50, "boom"⟩ : ProcessOutput) (.ok ())
        (fun _ => .ok ([9], (7 : Nat))) (.error (.Error "unused")) = .ok ([9], 7) ∧
    get_sdist_metadata_internal (⟨some 2, "boom"⟩ : ProcessOutput) (.ok ())
        (fun _ => .ok ([9], (7 : Nat))) (.error (.Error "unused")) =
      .error (.Error "boom") :=
  ⟨(metadata_exit_code_semantics (.ok ()) (fun _ => .ok ([9], (7 : Nat)))
      (.error (.Error "unused")) "boom" 2).1 () ([9], 7) rfl rfl,
   (metadata_exit_code_semantics (.ok ()) (fun _ => .ok ([9], (7 : Nat)))
      (.error (.Error "unused")) "boom" 2).2.2 (by decide) (by decide)⟩

/-! ## Single-flight sandbox provisioning
(src/wheel_builder/mod.rs, setup_build_venv)

The coordination of concurrent `setup_build_venv` calls is embedded as a
small-step transition system.  Each atomic step of a task corresponds to
one lock-protected region or one runtime primitive of the source:

* `start`: the `venv_cache` lock region (source lines 106-112);
* `inflightCheck`: the `in_setup_venv` lock region, which either
  subscribes to a live broadcast sender or installs a fresh channel and
  makes the task the provisioner (lines 124-149);
* `waiting`: the `rx.recv().await` and its result handling
  (lines 153-175);
* `constructing`: the provisioning future (lines 183-191), which can
  complete, fail, or panic;
* `inserting`: the `venv_cache` insert of the built environment
  (lines 195-197);
* `sendingOk` / `sendingErr`: the broadcast send (lines 200 and 207);
* `droppingOk` / `droppingErr`: the drop of the `Arc`-owned sender when
  the function returns, which is what expires the weak reference held by
  `in_setup_venv`.

Build environments are identified by the number of constructor runs that
preceded them, so distinct provisioning attempts yield distinct
identities.  The broadcast channel follows tokio semantics: a receiver
obtained from `subscribe` only observes a value sent after the
subscription, and `recv` on a channel whose sender was dropped without a
visible value fails with a closed-channel error. -/

/-- One broadcast channel: the single value sent over it, and whether
the `Arc`-owned sender is still alive (the weak reference in the
in-flight map upgrades successfully exactly while this holds). -/
structure Chan where
  sent : Option (Option Nat)
  senderAlive : Bool
deriving DecidableEq, Repr

/-- Program counter of one `setup_build_venv` call. -/
inductive TaskPC where
  | start
  | inflightCheck
  | waiting (ch : Nat) (subBeforeSend : Bool)
  | constructing (ch : Nat) (env : Nat)
  | inserting (ch : Nat) (env : Nat)
  | sendingOk (ch : Nat) (env : Nat)
  | sendingErr (ch : Nat) (msg : String)
  | droppingOk (ch : Nat) (env : Nat)
  | droppingErr (ch : Nat) (msg : String)
  | done (res : Except WheelBuildError Nat)
  | panicked
deriving DecidableEq, Repr

/-- One task: the source-artifact name it provisions for and its
program counter. -/
structure SfTask where
  name : String
  pc : TaskPC
deriving DecidableEq, Repr

/-- Shared state of the wheel builder: the `venv_cache` map, the
`in_setup_venv` map (name to channel index), the channels, the tasks and
the number of constructor runs so far. -/
structure SfState where
  venvCache : List (String × Nat)
  inflight : List (String × Nat)
  chans : List Chan
  tasks : List SfTask
  constructCount : Nat
deriving DecidableEq, Repr

/-- Outcome chosen by the scheduler for a `constructing` step: the
provisioning future completes, fails with an error message, or
panics. -/
inductive SfAction where
  | proceed
  | fail (msg : String)
  | panic
deriving DecidableEq, Repr

/-- Replace the program counter of task `tid`. -/
def updPC (s : SfState) (tid : Nat) (t : SfTask) (pc : TaskPC) : SfState :=
  { s with tasks := s.tasks.set tid { name := t.name, pc := pc } }

/-- Install a fresh broadcast channel, register its weak reference in
the in-flight map and make task `tid` the provisioner (source
lines 134-139 and 142-147); the constructor run starts here. -/
def newProvisioner (s : SfState) (tid : Nat) (t : SfTask) : SfState :=
  { venvCache := s.venvCache
    inflight := insertAssoc s.inflight t.name s.chans.length
    chans := s.chans ++ [{ sent := none, senderAlive := true }]
    tasks := s.tasks.set tid
      { name := t.name, pc := .constructing s.chans.length s.constructCount }
    constructCount := s.constructCount + 1 }

/-- Broadcast a value over channel `ch`. -/
def sendChan (s : SfState) (ch : Nat) (v : Option Nat) : SfState :=
  { s with chans :=
      match s.chans[ch]? with
      | some c => s.chans.set ch { c with sent := some v }
      | none => s.chans }

/-- Drop the sender of channel `ch`, expiring the weak reference. -/
def killSender (s : SfState) (ch : Nat) : SfState :=
  { s with chans :=
      match s.chans[ch]? with
      | some c => s.chans.set ch { c with senderAlive := false }
      | none => s.chans }

/-- The waiter result handling of source lines 162-174: a received
`Some` is the success value, a received `None` is the build-setup error,
and a receive failure (sender dropped) is the distinct panic error. -/
def recvOutcome (v : Option Nat) : Except WheelBuildError Nat :=
  match v with
  | some env => .ok env
  | none => .error (.Error "error during setup of original build environment")

/-- The error a waiter surfaces when the broadcast sender was dropped
without a visible value (source lines 162-166). -/
def recvClosedError : Except WheelBuildError Nat :=
  .error (.Error "panic during setup of original build environment")

/-- One atomic step of task `tid`. -/
def stepTask (s : SfState) (t : SfTask) (tid : Nat) (act : SfAction) : SfState :=
  match t.pc with
  | .start =>
    match lookupAssoc s.venvCache t.name with
    | some env => updPC s tid t (.done (.ok env))
    | none => updPC s tid t .inflightCheck
  | .inflightCheck =>
    match lookupAssoc s.inflight t.name with
    | some ch =>
      match s.chans[ch]? with
      | some c =>
        if c.senderAlive then
          updPC s tid t (.waiting ch (c.sent = none))
        else
          newProvisioner s tid t
      | none => newProvisioner s tid t
    | none => newProvisioner s tid t
  | .waiting ch before =>
    match s.chans[ch]? with
    | none => s
    | some c =>
      match before, c.sent with
      | true, some v => updPC s tid t (.done (recvOutcome v))
      | _, _ =>
        if c.senderAlive then s
        else updPC s tid t (.done recvClosedError)
  | .constructing ch env =>
    match act with
    | .proceed => updPC s tid t (.inserting ch env)
    | .fail msg => updPC s tid t (.sendingErr ch msg)
    | .panic => updPC (killSender s ch) tid t .panicked
  | .inserting ch env =>
    { updPC s tid t (.sendingOk ch env) with
      venvCache := insertAssoc s.venvCache t.name env }
  | .sendingOk ch env => updPC (sendChan s ch (some env)) tid t (.droppingOk ch env)
  | .sendingErr ch msg => updPC (sendChan s ch none) tid t (.droppingErr ch msg)
  | .droppingOk ch env => updPC (killSender s ch) tid t (.done (.ok env))
  | .droppingErr ch msg => updPC (killSender s ch) tid t (.done (.error (.Error msg)))
  | .done _ => s
  | .panicked => s

/-- One scheduled step: a no-op for an invalid task index. -/
def sfStep (s : SfState) (e : Nat × SfAction) : SfState :=
  match s.tasks[e.1]? with
  | none => s
  | some t => stepTask s t e.1 e.2

/-- Run a schedule. -/
def runSched (s : SfState) : List (Nat × SfAction) → SfState
  | [] => s
  | e :: rest => runSched (sfStep s e) rest

/-- Initial state: every task is a fresh `setup_build_venv` call for its
name; no environments, no in-flight provisioning. -/
def sfInit (names : List String) : SfState :=
  { venvCache := []
    inflight := []
    chans := []
    tasks := names.map (fun n => { name := n, pc := .start })
    constructCount := 0 }

/-- Schedule exhibiting the provisioning race: the second caller misses
the `venv_cache` before the first provisioner publishes its result, and
reaches the in-flight map only after the provisioner completed and its
weak sender reference expired. -/
def raceSched : List (Nat × SfAction) :=
  [(0, .proceed), (1, .proceed), (0, .proceed), (0, .proceed), (0, .proceed),
   (0, .proceed), (0, .proceed), (1, .proceed), (1, .proceed), (1, .proceed),
   (1, .proceed), (1, .proceed)]

/-- Final state of the racing schedule. -/
def raceFinal : SfState := runSched (sfInit ["s", "s"]) raceSched

/-- C2 counterexample.  Two overlapping `setup_build_venv` calls for the
same source name can both succeed while the environment constructor runs
twice and the two callers obtain distinct build-environment instances:
the claimed exactly-once and shared-instance guarantees fail on the
interleaving `raceSched`. -/
theorem single_flight_counterexample :
    raceFinal.constructCount = 2 ∧
      raceFinal.tasks.map SfTask.pc =
        [.done (.ok 0), .done (.ok 1)] ∧
      (0 : Nat) ≠ 1 := by decide

/-- Channel owned by a task currently inside the provisioning critical
path, i.e. between installing its weak sender reference and dropping the
sender. -/
def provChan : TaskPC → Option Nat
  | .constructing ch _ => some ch
  | .inserting ch _ => some ch
  | .sendingOk ch _ => some ch
  | .sendingErr ch _ => some ch
  | .droppingOk ch _ => some ch
  | .droppingErr ch _ => some ch
  | _ => none

/-- Invariant of the provisioning system: every in-flight provisioner
owns the registered channel of its name and that channel has a live
sender; distinct provisioners own distinct channels; and every
registered channel index is allocated. -/
def SfInv (s : SfState) : Prop :=
  (∀ (tid : Nat) (t : SfTask) (ch : Nat),
    s.tasks[tid]? = some t → provChan t.pc = some ch →
    lookupAssoc s.inflight t.name = some ch ∧
    ∃ c, s.chans[ch]? = some c ∧ c.senderAlive = true) ∧
  (∀ (i j : Nat) (ti tj : SfTask) (ci cj : Nat),
    s.tasks[i]? = some ti → s.tasks[j]? = some tj →
    provChan ti.pc = some ci → provChan tj.pc = some cj → ci = cj → i = j) ∧
  (∀ (n : String) (ch : Nat),
    lookupAssoc s.inflight n = some ch → ch < s.chans.length)

theorem lookupAssoc_insertAssoc {α β : Type} [DecidableEq α]
    (l : List (α × β)) (k : α) (v : β) (k' : α) :
    lookupAssoc (insertAssoc l k v) k' =
      if k = k' then some v else lookupAssoc l k' := by
  induction l with
  | nil => by_cases h : k = k' <;> simp [insertAssoc, lookupAssoc, h]
  | cons x t ih =>
    obtain ⟨k0, v0⟩ := x
    by_cases h0 : k0 = k
    · rw [show insertAssoc ((k0, v0) :: t) k v = (k0, v) :: t by
        simp [insertAssoc, h0]]
      by_cases h' : k = k'
      · simp [lookupAssoc, h0, h']
      · have : ¬ k0 = k' := fun hc => h' (h0 ▸ hc)
        simp [lookupAssoc, this, h']
    · rw [show insertAssoc ((k0, v0) :: t) k v = (k0, v0) :: insertAssoc t k v by
        simp [insertAssoc, h0]]
      by_cases h1 : k0 = k'
      · have : ¬ k = k' := fun hc => h0 (hc ▸ h1)
        simp [lookupAssoc, h1, this]
      · simp [lookupAssoc, h1, ih]

theorem lt_of_getElem?_eq_some {α : Type} {l : List α} {n : Nat} {a : α}
    (h : l[n]? = some a) : n < l.length := by
  by_contra hn
  rw [List.getElem?_eq_none (Nat.le_of_not_lt hn)] at h
  cases h

theorem inv_updPC_none (s : SfState) (tid : Nat) (t : SfTask) (pc' : TaskPC)
    (ht : s.tasks[tid]? = some t) (hpc' : provChan pc' = none) (h : SfInv s) :
    SfInv (updPC s tid t pc') := by
  obtain ⟨h1, h2, h3⟩ := h
  have htid : tid < s.tasks.length := lt_of_getElem?_eq_some ht
  refine ⟨?_, ?_, h3⟩
  · intro tid' t' ch ht' hch
    rw [show (updPC s tid t pc').tasks =
      s.tasks.set tid { name := t.name, pc := pc' } from rfl,
      List.getElem?_set] at ht'
    by_cases he : tid = tid'
    · rw [if_pos he, if_pos htid] at ht'
      cases ht'
      rw [hpc'] at hch
      cases hch
    · rw [if_neg he] at ht'
      exact h1 tid' t' ch ht' hch
  · intro i j ti tj ci cj hi hj hci hcj hcc
    rw [show (updPC s tid t pc').tasks =
      s.tasks.set tid { name := t.name, pc := pc' } from rfl,
      List.getElem?_set] at hi hj
    by_cases hei : tid = i
    · rw [if_pos hei, if_pos htid] at hi
      cases hi
      rw [hpc'] at hci
      cases hci
    · rw [if_neg hei] at hi
      by_cases hej : tid = j
      · rw [if_pos hej, if_pos htid] at hj
        cases hj
        rw [hpc'] at hcj
        cases hcj
      · rw [if_neg hej] at hj
        exact h2 i j ti tj ci cj hi hj hci hcj hcc

theorem inv_updPC_keep (s : SfState) (tid : Nat) (t : SfTask) (pc' : TaskPC)
    (ht : s.tasks[tid]? = some t) (hsame : provChan pc' = provChan t.pc)
    (h : SfInv s) : SfInv (updPC s tid t pc') := by
  obtain ⟨h1, h2, h3⟩ := h
  have htid : tid < s.tasks.length := lt_of_getElem?_eq_some ht
  refine ⟨?_, ?_, h3⟩
  · intro tid' t' ch ht' hch
    rw [show (updPC s tid t pc').tasks =
      s.tasks.set tid { name := t.name, pc := pc' } from rfl,
      List.getElem?_set] at ht'
    by_cases he : tid = tid'
    · rw [if_pos he, if_pos htid] at ht'
      cases ht'
      exact h1 tid t ch ht (hsame.symm.trans hch)
    · rw [if_neg he] at ht'
      exact h1 tid' t' ch ht' hch
  · intro i j ti tj ci cj hi hj hci hcj hcc
    rw [show (updPC s tid t pc').tasks =
      s.tasks.set tid { name := t.name, pc := pc' } from rfl,
      List.getElem?_set] at hi hj
    by_cases hei : tid = i
    · rw [if_pos hei, if_pos htid] at hi
      cases hi
      by_cases hej : tid = j
      · exact hei.symm.trans hej
      · rw [if_neg hej] at hj
        exact hei.symm.trans (h2 tid j t tj ci cj ht hj (hsame.symm.trans hci) hcj hcc)
    · rw [if_neg hei] at hi
      by_cases hej : tid = j
      · rw [if_pos hej, if_pos htid] at hj
        cases hj
        exact (h2 i tid ti t ci cj hi ht hci (hsame.symm.trans hcj) hcc).trans hej
      · rw [if_neg hej] at hj
        exact h2 i j ti tj ci cj hi hj hci hcj hcc

theorem inv_sendStep (s : SfState) (tid : Nat) (t : SfTask) (ch : Nat)
    (v : Option Nat) (pc' : TaskPC) (ht : s.tasks[tid]? = some t)
    (hprov : provChan t.pc = some ch) (hsame : provChan pc' = some ch)
    (h : SfInv s) : SfInv (updPC (sendChan s ch v) tid t pc') := by
  obtain ⟨h1, h2, h3⟩ := h
  have htid : tid < s.tasks.length := lt_of_getElem?_eq_some ht
  have hchans : ∀ (i : Nat) (c : Chan), s.chans[i]? = some c →
      ∃ c', (sendChan s ch v).chans[i]? = some c' ∧ c'.senderAlive = c.senderAlive := by
    intro i c hc
    unfold sendChan
    cases hcc : s.chans[ch]? with
    | none => exact ⟨c, by simp [hcc, hc]⟩
    | some c0 =>
      by_cases hi : ch = i
      · subst hi
        rw [hcc] at hc
        injection hc with hc0
        subst hc0
        refine ⟨{ c0 with sent := some v }, ?_, rfl⟩
        rw [List.getElem?_set, if_pos rfl, if_pos (lt_of_getElem?_eq_some hcc)]
      · refine ⟨c, ?_, rfl⟩
        simp only [List.getElem?_set, if_neg hi]
        exact hc
  refine ⟨?_, ?_, ?_⟩
  · intro tid' t' ch' ht' hch'
    rw [show (updPC (sendChan s ch v) tid t pc').tasks =
      s.tasks.set tid { name := t.name, pc := pc' } from rfl,
      List.getElem?_set] at ht'
    by_cases he : tid = tid'
    · rw [if_pos he, if_pos htid] at ht'
      cases ht'
      rw [hsame] at hch'
      cases hch'
      obtain ⟨hlk, c, hc, halive⟩ := h1 tid t ch ht hprov
      obtain ⟨c', hc', halive'⟩ := hchans ch c hc
      exact ⟨hlk, c', hc', halive' ▸ halive⟩
    · rw [if_neg he] at ht'
      obtain ⟨hlk, c, hc, halive⟩ := h1 tid' t' ch' ht' hch'
      obtain ⟨c', hc', halive'⟩ := hchans ch' c hc
      exact ⟨hlk, c', hc', halive' ▸ halive⟩
  · intro i j ti tj ci cj hi hj hci hcj hcc
    rw [show (updPC (sendChan s ch v) tid t pc').tasks =
      s.tasks.set tid { name := t.name, pc := pc' } from rfl,
      List.getElem?_set] at hi hj
    by_cases hei : tid = i
    · rw [if_pos hei, if_pos htid] at hi
      cases hi
      by_cases hej : tid = j
      · exact hei.symm.trans hej
      · rw [if_neg hej] at hj
        rw [hsame] at hci
        exact hei.symm.trans (h2 tid j t tj ci cj ht hj (hci ▸ hprov) hcj hcc)
    · rw [if_neg hei] at hi
      by_cases hej : tid = j
      · rw [if_pos hej, if_pos htid] at hj
        cases hj
        rw [hsame] at hcj
        exact (h2 i tid ti t ci cj hi ht hci (hcj ▸ hprov) hcc).trans hej
      · rw [if_neg hej] at hj
        exact h2 i j ti tj ci cj hi hj hci hcj hcc
  · intro n ch0 hlk
    have hlen : (sendChan s ch v).chans.length = s.chans.length := by
      unfold sendChan
      cases hcc : s.chans[ch]? with
      | none => rfl
      | some c0 => simp [List.length_set]
    rw [show (updPC (sendChan s ch v) tid t pc').chans = (sendChan s ch v).chans from rfl,
      hlen]
    exact h3 n ch0 hlk

theorem inv_dropStep (s : SfState) (tid : Nat) (t : SfTask) (ch : Nat)
    (pc' : TaskPC) (ht : s.tasks[tid]? = some t)
    (hprov : provChan t.pc = some ch) (hpc' : provChan pc' = none)
    (h : SfInv s) : SfInv (updPC (killSender s ch) tid t pc') := by
  obtain ⟨h1, h2, h3⟩ := h
  have htid : tid < s.tasks.length := lt_of_getElem?_eq_some ht
  refine ⟨?_, ?_, ?_⟩
  · intro tid' t' ch' ht' hch'
    rw [show (updPC (killSender s ch) tid t pc').tasks =
      s.tasks.set tid { name := t.name, pc := pc' } from rfl,
      List.getElem?_set] at ht'
    by_cases he : tid = tid'
    · rw [if_pos he, if_pos htid] at ht'
      cases ht'
      rw [hpc'] at hch'
      cases hch'
    · rw [if_neg he] at ht'
      obtain ⟨hlk, c, hc, halive⟩ := h1 tid' t' ch' ht' hch'
      have hne : ch ≠ ch' := by
        intro hcontra
        exact he (h2 tid tid' t t' ch ch' ht ht' hprov hch' hcontra)
      refine ⟨hlk, c, ?_, halive⟩
      show (killSender s ch).chans[ch']? = some c
      unfold killSender
      cases hcc : s.chans[ch]? with
      | none => exact hc
      | some c0 =>
        simp only [List.getElem?_set, if_neg hne]
        exact hc
  · intro i j ti tj ci cj hi hj hci hcj hcc
    rw [show (updPC (killSender s ch) tid t pc').tasks =
      s.tasks.set tid { name := t.name, pc := pc' } from rfl,
      List.getElem?_set] at hi hj
    by_cases hei : tid = i
    · rw [if_pos hei, if_pos htid] at hi
      cases hi
      rw [hpc'] at hci
      cases hci
    · rw [if_neg hei] at hi
      by_cases hej : tid = j
      · rw [if_pos hej, if_pos htid] at hj
        cases hj
        rw [hpc'] at hcj
        cases hcj
      · rw [if_neg hej] at hj
        exact h2 i j ti tj ci cj hi hj hci hcj hcc
  · intro n ch0 hlk
    have hlen : (killSender s ch).chans.length = s.chans.length := by
      unfold killSender
      cases hcc : s.chans[ch]? with
      | none => rfl
      | some c0 => simp [List.length_set]
    rw [show (updPC (killSender s ch) tid t pc').chans = (killSender s ch).chans from rfl,
      hlen]
    exact h3 n ch0 hlk

theorem inv_newProvisioner (s : SfState) (tid : Nat) (t : SfTask)
    (ht : s.tasks[tid]? = some t)
    (hdead : ∀ (ch : Nat) (c : Chan), lookupAssoc s.inflight t.name = some ch →
      s.chans[ch]? = some c → c.senderAlive = false)
    (h : SfInv s) : SfInv (newProvisioner s tid t) := by
  obtain ⟨h1, h2, h3⟩ := h
  have htid : tid < s.tasks.length := lt_of_getElem?_eq_some ht
  have hNoSame : ∀ (tid' : Nat) (t' : SfTask) (ch' : Nat),
      s.tasks[tid']? = some t' → provChan t'.pc = some ch' → t'.name ≠ t.name := by
    intro tid' t' ch' ht' hch' hnm
    obtain ⟨hlk, c', hc', halive⟩ := h1 tid' t' ch' ht' hch'
    rw [hnm] at hlk
    rw [hdead ch' c' hlk hc'] at halive
    cases halive
  have hconcat : (s.chans ++ [{ sent := none, senderAlive := true }])[s.chans.length]? =
      some { sent := none, senderAlive := true } := by
    rw [List.getElem?_append]
    simp
  refine ⟨?_, ?_, ?_⟩
  · intro tid' t' ch' ht' hch'
    rw [show (newProvisioner s tid t).tasks = s.tasks.set tid
      { name := t.name, pc := .constructing s.chans.length s.constructCount } from rfl,
      List.getElem?_set] at ht'
    by_cases he : tid = tid'
    · rw [if_pos he, if_pos htid] at ht'
      cases ht'
      simp only [provChan, Option.some.injEq] at hch'
      cases hch'
      constructor
      · show lookupAssoc (insertAssoc s.inflight t.name s.chans.length) t.name =
          some s.chans.length
        rw [lookupAssoc_insertAssoc, if_pos rfl]
      · exact ⟨{ sent := none, senderAlive := true }, hconcat, rfl⟩
    · rw [if_neg he] at ht'
      have hname := hNoSame tid' t' ch' ht' hch'
      obtain ⟨hlk, c', hc', halive⟩ := h1 tid' t' ch' ht' hch'
      have hlt : ch' < s.chans.length := lt_of_getElem?_eq_some hc'
      constructor
      · show lookupAssoc (insertAssoc s.inflight t.name s.chans.length) t'.name =
          some ch'
        rw [lookupAssoc_insertAssoc, if_neg (fun hnm => hname hnm.symm)]
        exact hlk
      · refine ⟨c', ?_, halive⟩
        show (s.chans ++ [{ sent := none, senderAlive := true }])[ch']? = some c'
        rw [List.getElem?_append, if_pos hlt]
        exact hc'
  · intro i j ti tj ci cj hi hj hci hcj hcc
    rw [show (newProvisioner s tid t).tasks = s.tasks.set tid
      { name := t.name, pc := .constructing s.chans.length s.constructCount } from rfl,
      List.getElem?_set] at hi hj
    by_cases hei : tid = i
    · rw [if_pos hei, if_pos htid] at hi
      cases hi
      by_cases hej : tid = j
      · exact hei.symm.trans hej
      · rw [if_neg hej] at hj
        simp only [provChan, Option.some.injEq] at hci
        obtain ⟨_, c', hc', _⟩ := h1 j tj cj hj hcj
        have hlt : cj < s.chans.length := lt_of_getElem?_eq_some hc'
        rw [← hcc, ← hci] at hlt
        exact absurd hlt (lt_irrefl _)
    · rw [if_neg hei] at hi
      by_cases hej : tid = j
      · rw [if_pos hej, if_pos htid] at hj
        cases hj
        simp only [provChan, Option.some.injEq] at hcj
        obtain ⟨_, c', hc', _⟩ := h1 i ti ci hi hci
        have hlt : ci < s.chans.length := lt_of_getElem?_eq_some hc'
        rw [hcc, ← hcj] at hlt
        exact absurd hlt (lt_irrefl _)
      · rw [if_neg hej] at hj
        exact h2 i j ti tj ci cj hi hj hci hcj hcc
  · intro n ch0 hlk
    rw [show (newProvisioner s tid t).inflight =
      insertAssoc s.inflight t.name s.chans.length from rfl,
      lookupAssoc_insertAssoc] at hlk
    show ch0 < (s.chans ++ [({ sent := none, senderAlive := true } : Chan)]).length
    rw [List.length_append]
    by_cases hn : t.name = n
    · rw [if_pos hn] at hlk
      cases hlk
      simp
    · rw [if_neg hn] at hlk
      have := h3 n ch0 hlk
      omega

theorem inv_sfStep (s : SfState) (e : Nat × SfAction) (h : SfInv s) :
    SfInv (sfStep s e) := by
  unfold sfStep
  cases ht : s.tasks[e.1]? with
  | none => exact h
  | some t =>
    obtain ⟨nm, pc⟩ := t
    cases pc with
    | start =>
      simp only [stepTask]
      cases hv : lookupAssoc s.venvCache nm with
      | some env => exact inv_updPC_none s e.1 ⟨nm, .start⟩ (.done (.ok env)) ht rfl h
      | none => exact inv_updPC_none s e.1 ⟨nm, .start⟩ .inflightCheck ht rfl h
    | inflightCheck =>
      simp only [stepTask]
      split
      next ch hv =>
        split
        next c hc =>
          split
          next hal =>
            exact inv_updPC_none s e.1 ⟨nm, .inflightCheck⟩
              (.waiting ch (decide (c.sent = none))) ht rfl h
          next hal =>
            refine inv_newProvisioner s e.1 ⟨nm, .inflightCheck⟩ ht ?_ h
            intro ch0 c0 hlk hc0
            rw [hv] at hlk
            injection hlk with he
            subst he
            rw [hc] at hc0
            injection hc0 with he2
            subst he2
            simpa using hal
        next hc =>
          refine inv_newProvisioner s e.1 ⟨nm, .inflightCheck⟩ ht ?_ h
          intro ch0 c0 hlk hc0
          rw [hv] at hlk
          injection hlk with he
          subst he
          rw [hc] at hc0
          cases hc0
      next hv =>
        refine inv_newProvisioner s e.1 ⟨nm, .inflightCheck⟩ ht ?_ h
        intro ch0 c0 hlk hc0
        rw [hv] at hlk
        cases hlk
    | waiting ch before =>
      simp only [stepTask]
      split
      · exact h
      · split
        next v heq =>
          exact inv_updPC_none s e.1 _ (.done (recvOutcome v)) ht rfl h
        next =>
          split
          · exact h
          · exact inv_updPC_none s e.1 _ (.done recvClosedError) ht rfl h
    | constructing ch env =>
      simp only [stepTask]
      cases hact : e.2 with
      | proceed =>
        exact inv_updPC_keep s e.1 ⟨nm, .constructing ch env⟩ (.inserting ch env) ht rfl h
      | fail msg =>
        exact inv_updPC_keep s e.1 ⟨nm, .constructing ch env⟩ (.sendingErr ch msg) ht rfl h
      | panic =>
        exact inv_dropStep s e.1 ⟨nm, .constructing ch env⟩ ch .panicked ht rfl rfl h
    | inserting ch env =>
      simp only [stepTask]
      exact inv_updPC_keep s e.1 ⟨nm, .inserting ch env⟩ (.sendingOk ch env) ht rfl h
    | sendingOk ch env =>
      simp only [stepTask]
      exact inv_sendStep s e.1 ⟨nm, .sendingOk ch env⟩ ch (some env)
        (.droppingOk ch env) ht rfl rfl h
    | sendingErr ch msg =>
      simp only [stepTask]
      exact inv_sendStep s e.1 ⟨nm, .sendingErr ch msg⟩ ch none
        (.droppingErr ch msg) ht rfl rfl h
    | droppingOk ch env =>
      simp only [stepTask]
      exact inv_dropStep s e.1 ⟨nm, .droppingOk ch env⟩ ch
        (.done (.ok env)) ht rfl rfl h
    | droppingErr ch msg =>
      simp only [stepTask]
      exact inv_dropStep s e.1 ⟨nm, .droppingErr ch msg⟩ ch
        (.done (.error (.Error msg))) ht rfl rfl h
    | done res => exact h
    | panicked => exact h

theorem inv_runSched (sched : List (Nat × SfAction)) :
    ∀ s : SfState, SfInv s → SfInv (runSched s sched) := by
  induction sched with
  | nil => intro s h; exact h
  | cons e rest ih => intro s h; exact ih (sfStep s e) (inv_sfStep s e h)

theorem sfInit_inv (names : List String) : SfInv (sfInit names) := by
  have htask : ∀ (tid : Nat) (t : SfTask),
      (sfInit names).tasks[tid]? = some t → t.pc = .start := by
    intro tid t ht
    rw [show (sfInit names).tasks =
      names.map (fun n => ({ name := n, pc := .start } : SfTask)) from rfl,
      List.getElem?_map] at ht
    cases hn : names[tid]? with
    | none => rw [hn] at ht; cases ht
    | some n0 =>
      rw [hn] at ht
      injection ht with ht'
      rw [← ht']
  refine ⟨?_, ?_, ?_⟩
  · intro tid t ch ht hch
    rw [htask tid t ht] at hch
    cases hch
  · intro i j ti tj ci cj hi hj hci hcj hcc
    rw [htask i ti hi] at hci
    cases hci
  · intro n ch hlk
    simp [sfInit, lookupAssoc] at hlk

/-- C2 (amended).  The surviving half of the single-flight claim: in
every state reachable by any schedule from any population of
`setup_build_venv` calls, at most one provisioning task exists per
source-artifact name at any instant (two tasks inside the provisioning
critical path with the same name are the same task).  The dropped half —
that the constructor runs exactly once for N overlapping calls and every
successful caller shares one instance — is refuted by
`single_flight_counterexample`. -/
theorem at_most_one_provisioner (names : List String)
    (sched : List (Nat × SfAction)) (i j : Nat) (ti tj : SfTask) (ci cj : Nat)
    (hi : (runSched (sfInit names) sched).tasks[i]? = some ti)
    (hj : (runSched (sfInit names) sched).tasks[j]? = some tj)
    (hnm : ti.name = tj.name)
    (hci : provChan ti.pc = some ci) (hcj : provChan tj.pc = some cj) :
    i = j := by
  obtain ⟨h1, h2, h3⟩ := inv_runSched sched (sfInit names) (sfInit_inv names)
  have hli := (h1 i ti ci hi hci).1
  have hlj := (h1 j tj cj hj hcj).1
  rw [hnm] at hli
  rw [hli] at hlj
  injection hlj with he
  exact h2 i j ti tj ci cj hi hj hci hcj he

/-- State with one task mid-provisioning, for the C2 witness. -/
def oneProvState : SfState :=
  runSched (sfInit ["s", "t"]) [(0, .proceed), (0, .proceed)]

/-- Witness for the amended C2 at a concrete reachable state whose task
zero is inside the provisioning critical path. -/
theorem at_most_one_provisioner_witness :
    oneProvState.tasks[0]? = some ⟨"s", .constructing 0 0⟩ ∧ (0 : Nat) = 0 :=
  ⟨by decide,
   at_most_one_provisioner ["s", "t"] [(0, .proceed), (0, .proceed)] 0 0
     ⟨"s", .constructing 0 0⟩ ⟨"s", .constructing 0 0⟩ 0 0
     (by decide) (by decide) rfl rfl rfl⟩

/-- C4.  Waiter outcome mapping and panic recovery: a waiter receiving
`Some env` returns it as success; receiving `None` surfaces the
build-setup error message; a closed-channel receive failure surfaces the
distinct panic error message; and a task that reaches the in-flight
check while the registered weak sender reference is expired (as after a
provisioner panic) becomes a fresh provisioner on a new live channel —
it neither waits on the dead channel nor propagates the prior panic, and
a fresh provisioning attempt is counted. -/
theorem waiter_outcomes_and_recovery (s : SfState) (tid : Nat) (t : SfTask)
    (ch : Nat) (c : Chan) (env : Nat) :
    recvOutcome (some env) = .ok env ∧
    recvOutcome none =
      .error (.Error "error during setup of original build environment") ∧
    recvClosedError =
      .error (.Error "panic during setup of original build environment") ∧
    (s.tasks[tid]? = some t → t.pc = .inflightCheck →
      lookupAssoc s.inflight t.name = some ch →
      s.chans[ch]? = some c → c.senderAlive = false →
      sfStep s (tid, .proceed) = newProvisioner s tid t ∧
      (newProvisioner s tid t).tasks[tid]? =
        some { name := t.name,
               pc := .constructing s.chans.length s.constructCount } ∧
      (newProvisioner s tid t).chans[s.chans.length]? =
        some { sent := none, senderAlive := true } ∧
      (newProvisioner s tid t).constructCount = s.constructCount + 1) := by
  refine ⟨rfl, rfl, rfl, ?_⟩
  intro ht hpc hlk hc hal
  have htid : tid < s.tasks.length := lt_of_getElem?_eq_some ht
  refine ⟨?_, ?_, ?_, rfl⟩
  · show (match s.tasks[tid]? with
      | none => s
      | some t0 => stepTask s t0 tid .proceed) = newProvisioner s tid t
    rw [ht]
    obtain ⟨nm, pc0⟩ := t
    cases hpc
    simp only [stepTask, hlk, hc, hal]
    rfl
  · rw [show (newProvisioner s tid t).tasks = s.tasks.set tid
      { name := t.name, pc := .constructing s.chans.length s.constructCount } from rfl,
      List.getElem?_set, if_pos rfl, if_pos htid]
  · rw [show (newProvisioner s tid t).chans =
      s.chans ++ [{ sent := none, senderAlive := true }] from rfl,
      List.getElem?_append]
    simp

/-- State reached after a provisioner panic with a second caller already
past the cache check, for the C4 witness. -/
def panicState : SfState :=
  runSched (sfInit ["s", "s"]) [(0, .proceed), (0, .proceed), (0, .panic), (1, .proceed)]

/-- Witness for C4: in the concrete post-panic state the second caller
becomes a fresh provisioner on a new live channel, and the waiter
outcome mapping holds at a concrete environment. -/
theorem waiter_outcomes_and_recovery_witness :
    recvOutcome (some 5) = .ok 5 ∧
    sfStep panicState (1, .proceed) =
      newProvisioner panicState 1 ⟨"s", .inflightCheck⟩ ∧
    (newProvisioner panicState 1 ⟨"s", .inflightCheck⟩).constructCount =
      panicState.constructCount + 1 := by
  have h := waiter_outcomes_and_recovery panicState 1 ⟨"s", .inflightCheck⟩ 0
    ⟨none, false⟩ 5
  have h4 := h.2.2.2 (by decide) rfl (by decide) (by decide) (by decide)
  exact ⟨h.1, h4.1, h4.2.2.2⟩
